import Mathlib

/-!
Shallow embedding of the AccountSplitting transfer-orchestration core
(`cmd/batch_transfer.go`, `cmd/single_transfer.go`).

Modelling conventions:
* A CSV file is modelled at the record level as `List (List String)` (the
  records produced by Go's `csv.Reader.ReadAll`, which enforces a uniform
  field count across records and whose failure we model explicitly).
* Go slice indexing out of range is a runtime panic; we model it as a
  distinct `crash` outcome, separate from a returned error.
* Machine integers (`uint64`, `int`) are modelled as `Nat` — all quantities
  involved (gas limits, counts, indices) are far below overflow in every
  reachable configuration, and Go's `int64(float64)` conversion and
  `big.Int` division are modelled exactly (`Int.tdiv` truncates toward
  zero like Go's conversion; `Int.ediv` is Euclidean like `big.Int.Div`).
* Network effects (RPC calls) are modelled as environments: a function from
  the unit index to a record of the results each chain call would return.
-/

namespace AccountSplitting

/-- Decidable equality for `Except`, needed so that concrete runs of the
embedded dispatchers can be evaluated by `decide`. -/
instance exceptDecidableEq {ε α : Type} [DecidableEq ε] [DecidableEq α] :
    DecidableEq (Except ε α)
  | .ok a, .ok b => decidable_of_iff (a = b) (by simp)
  | .ok _, .error _ => .isFalse (by simp)
  | .error _, .ok _ => .isFalse (by simp)
  | .error e, .error f => decidable_of_iff (e = f) (by simp)

/-- Go struct `WalletInfo` from `cmd/batch_transfer.go`. -/
structure WalletInfo where
  address : String
  privateKey : String
  mnemonic : String
deriving DecidableEq, Repr

/-- The `expectedHeaders` slice of `readWalletsFromCSV`. -/
def expectedHeaders : List String := ["Address", "Private Key", "Mnemonic"]

/-- Outcome of the header-validation loop of `readWalletsFromCSV`:
the header matches, a column mismatches, or `headers[i]` indexes out of
bounds (a Go panic). -/
inductive HeaderCheck where
  | ok
  | mismatch
  | oob
deriving DecidableEq, Repr

/-- One iteration of the header loop `if headers[i] != header { ... }`:
Go indexing `headers[i]` panics (`.oob`) when `i` is out of range. -/
def checkOne (hs : List String) (i : Nat) (expected : String) (k : HeaderCheck) : HeaderCheck :=
  match hs.get? i with
  | none => .oob
  | some v => if v = expected then k else .mismatch

/-- The header-validation loop of `readWalletsFromCSV` (lines 63-69),
iterating over the three `expectedHeaders` in order. -/
def checkHeader (hs : List String) : HeaderCheck :=
  checkOne hs 0 "Address" (checkOne hs 1 "Private Key" (checkOne hs 2 "Mnemonic" .ok))

/-- Go's `strings.TrimSpace`: drop leading and trailing whitespace
characters (modelled structurally over the character list so that concrete
runs reduce). -/
def trimSpace (s : String) : String :=
  ⟨((s.data.dropWhile Char.isWhitespace).reverse.dropWhile Char.isWhitespace).reverse⟩

/-- One data row: `if len(record) != 3` fails, otherwise the three fields
are trimmed (`strings.TrimSpace`) into a `WalletInfo`. -/
def parseRow (r : List String) : Option WalletInfo :=
  match r with
  | [a, b, c] => some ⟨trimSpace a, trimSpace b, trimSpace c⟩
  | _ => none

/-- The data-row loop of `readWalletsFromCSV` (lines 72-81): the first row
with a field count other than 3 aborts with an error. -/
def parseAllRows : List (List String) → Option (List WalletInfo)
  | [] => some []
  | r :: rest =>
    match parseRow r with
    | none => none
    | some w =>
      match parseAllRows rest with
      | none => none
      | some ws => some (w :: ws)

/-- Go's `csv.Reader.ReadAll` with default settings fails unless every
record has the same field count as the first record. -/
def csvUniform (rows : List (List String)) : Bool :=
  match rows with
  | [] => true
  | r0 :: rest => rest.all (fun r => r.length = r0.length)

/-- Result of `readWalletsFromCSV`: parsed records, a returned error
(every error return of the Go function, i.e. a `MalformedLedger`), or a
runtime panic from out-of-bounds header indexing. -/
inductive ReadOutcome where
  | ok (ws : List WalletInfo)
  | malformed
  | crash
deriving DecidableEq, Repr

/-- `readWalletsFromCSV` (`cmd/batch_transfer.go` lines 45-84), from the
record level up: `ReadAll` uniformity, the minimum-row check, the header
loop, and the data-row loop. -/
def readWalletsFromCSV (rows : List (List String)) : ReadOutcome :=
  if csvUniform rows = false then .malformed
  else if rows.length < 2 then .malformed
  else
    match rows with
    | [] => .malformed
    | headers :: data =>
      match checkHeader headers with
      | .oob => .crash
      | .mismatch => .malformed
      | .ok =>
        match parseAllRows data with
        | none => .malformed
        | some ws => .ok ws

/-- The wallet a well-formed (3-column) data row parses to. -/
def rowToWallet (r : List String) : WalletInfo :=
  ⟨trimSpace (r.getD 0 ""), trimSpace (r.getD 1 ""), trimSpace (r.getD 2 "")⟩

/-- The `MaxWallets` truncation of `ExecuteBatchTransfer` (lines 95-99)
and `SingleTransferCmd` (lines 85-89):
`if maxWallets > 0 && totalWallets > maxWallets { wallets = wallets[:maxWallets] }`. -/
def applyMaxWallets {α : Type} (maxWallets : Nat) (ws : List α) : List α :=
  if 0 < maxWallets ∧ maxWallets < ws.length then ws.take maxWallets else ws

/-- The chunk partition of `ExecuteBatchTransfer` (lines 101-136):
`totalBatches := (totalWallets + batchSize - 1) / batchSize`, and chunk `i`
is the slice `wallets[i*batchSize : min((i+1)*batchSize, totalWallets)]`. -/
def chunksOf {α : Type} (batchSize : Nat) (ws : List α) : List (List α) :=
  (List.range ((ws.length + batchSize - 1) / batchSize)).map
    (fun i => (ws.drop (i * batchSize)).take (min ((i + 1) * batchSize) ws.length - i * batchSize))

/-- Go's `int64(x)` conversion of a nonnegative real value truncates toward
zero; on a rational input this is T-division of numerator by denominator. -/
def goTruncInt (q : ℚ) : ℤ := Int.tdiv q.num (q.den : ℤ)

/-- Gas-price computation of `BatchTransferCmd` (lines 299-303):
`suggested * int64(multiplier*100) / 100` with `big.Int` (Euclidean)
division. -/
def batchGasPrice (suggested : ℤ) (multiplier : ℚ) : ℤ :=
  Int.ediv (suggested * goTruncInt (multiplier * 100)) 100

/-- Gas-price computation of `SingleTransferCmd` (lines 66-70):
`suggested * int64(multiplier*10000) / 10000` with `big.Int` (Euclidean)
division. -/
def singleGasPrice (suggested : ℤ) (multiplier : ℚ) : ℤ :=
  Int.ediv (suggested * goTruncInt (multiplier * 10000)) 10000

/-- Results the chain would return for one chunk of the batch dispatcher:
`abi.Pack`, `EstimateGas`, `Transact` (tx id), `WaitMined` (receipt
status). `.error` means the corresponding call fails. -/
structure ChunkEnv where
  packOk : Bool
  estimateGas : Except Unit Nat
  transact : Except Unit Nat
  waitMined : Except Unit Nat
deriving DecidableEq, Repr

/-- The failure modes of one chunk in `ExecuteBatchTransfer`. -/
inductive BatchErr where
  | packFailed
  | estimateFailed
  | submitFailed
  | confirmFailed
  | reverted
deriving DecidableEq, Repr

/-- What processing one chunk did: how many `EstimateGas` calls were made,
the gas limit in force when `Transact` was reached (none if the chunk
failed before submission), and the outcome. -/
structure ChunkResult where
  estCalls : Nat
  gasLimit : Option Nat
  outcome : Except BatchErr Unit
deriving DecidableEq, Repr

/-- `ExecuteBatchTransfer` lines 181-196: submit, wait for confirmation,
check the receipt status (`receipt.Status == 0` is an on-chain revert). -/
def chunkAfterGas (calls gl : Nat) (e : ChunkEnv) : ChunkResult :=
  match e.transact with
  | .error _ => ⟨calls, some gl, .error .submitFailed⟩
  | .ok _ =>
    match e.waitMined with
    | .error _ => ⟨calls, some gl, .error .confirmFailed⟩
    | .ok status => if status = 0 then ⟨calls, some gl, .error .reverted⟩ else ⟨calls, some gl, .ok ()⟩

/-- One chunk of `ExecuteBatchTransfer` (lines 152-196): when
`cfg.GasLimit == 0`, pack the call data, estimate gas and add the 20%
buffer (`gasLimit * 12 / 10`); otherwise use the fixed limit verbatim;
then submit and confirm. -/
def processOneChunk (fixedGasLimit : Nat) (e : ChunkEnv) : ChunkResult :=
  if fixedGasLimit = 0 then
    if e.packOk = false then ⟨0, none, .error .packFailed⟩
    else
      match e.estimateGas with
      | .error _ => ⟨1, none, .error .estimateFailed⟩
      | .ok g => chunkAfterGas 1 (g * 12 / 10) e
  else chunkAfterGas 0 fixedGasLimit e

/-- Aggregate view of a batch run: which chunk indices were attempted (in
order), total `EstimateGas` calls, the gas limit used by each submitted
chunk, and the run result (`error (k, e)` = the run aborted at chunk `k`). -/
structure BatchRun where
  attempted : List Nat
  estCalls : Nat
  gasLimits : List Nat
  result : Except (Nat × BatchErr) Unit
deriving DecidableEq, Repr

/-- The chunk loop of `ExecuteBatchTransfer` (lines 129-210) over a list of
chunk indices: any chunk failure returns from the function immediately. -/
def runChunkList (fixedGasLimit : Nat) (env : Nat → ChunkEnv) : List Nat → BatchRun
  | [] => ⟨[], 0, [], .ok ()⟩
  | i :: rest =>
    let r := processOneChunk fixedGasLimit (env i)
    match r.outcome with
    | .error e => ⟨[i], r.estCalls, r.gasLimit.toList, .error (i, e)⟩
    | .ok _ =>
      let tl := runChunkList fixedGasLimit env rest
      ⟨i :: tl.attempted, r.estCalls + tl.estCalls, r.gasLimit.toList ++ tl.gasLimits, tl.result⟩

/-- The batch dispatcher's submit/confirm loop over chunks `0..total-1`. -/
def runBatches (fixedGasLimit : Nat) (env : Nat → ChunkEnv) (total : Nat) : BatchRun :=
  runChunkList fixedGasLimit env (List.range total)

/-- Results the chain would return for one wallet of the sequential
dispatcher, in the order the code consults them: `crypto.HexToECDSA`,
`PendingNonceAt`, `EstimateGas`, `ChainID`, `SignTx`, `SendTransaction`,
`WaitMined` (receipt status). -/
structure WalletEnv where
  parseKey : Except Unit Nat
  pendingNonce : Except Unit Nat
  estimateGas : Except Unit Nat
  chainId : Except Unit Nat
  signTx : Except Unit Nat
  sendTx : Except Unit Unit
  waitMined : Except Unit Nat
deriving DecidableEq, Repr

/-- The failure modes of one wallet in `SingleTransferCmd`. -/
inductive SeqErr where
  | keyParseFailed
  | nonceFailed
  | estimateFailed
  | chainIdFailed
  | signFailed
  | sendFailed
  | confirmFailed
  | reverted
deriving DecidableEq, Repr

/-- What processing one wallet did: `EstimateGas` calls made, the gas limit
used to build the transaction (none if the wallet failed before that), and
the outcome. -/
structure WalletResult where
  estCalls : Nat
  gasLimit : Option Nat
  outcome : Except SeqErr Unit
deriving DecidableEq, Repr

/-- `SingleTransferCmd` lines 153-200: build the transaction with the
resolved gas limit, get the chain id, sign, send, wait, check the status. -/
def walletAfterGas (calls gl : Nat) (e : WalletEnv) : WalletResult :=
  match e.chainId with
  | .error _ => ⟨calls, some gl, .error .chainIdFailed⟩
  | .ok _ =>
    match e.signTx with
    | .error _ => ⟨calls, some gl, .error .signFailed⟩
    | .ok _ =>
      match e.sendTx with
      | .error _ => ⟨calls, some gl, .error .sendFailed⟩
      | .ok _ =>
        match e.waitMined with
        | .error _ => ⟨calls, some gl, .error .confirmFailed⟩
        | .ok status =>
          if status = 0 then ⟨calls, some gl, .error .reverted⟩ else ⟨calls, some gl, .ok ()⟩

/-- One wallet of `SingleTransferCmd` (lines 117-206): parse the key, fetch
the nonce, resolve the gas limit (fixed verbatim, or estimated with the
20% buffer `estimatedGas * 12 / 10`), then build/sign/send/confirm. -/
def processWallet (fixedGasLimit : Nat) (e : WalletEnv) : WalletResult :=
  match e.parseKey with
  | .error _ => ⟨0, none, .error .keyParseFailed⟩
  | .ok _ =>
    match e.pendingNonce with
    | .error _ => ⟨0, none, .error .nonceFailed⟩
    | .ok _ =>
      if fixedGasLimit = 0 then
        match e.estimateGas with
        | .error _ => ⟨1, none, .error .estimateFailed⟩
        | .ok g => walletAfterGas 1 (g * 12 / 10) e
      else walletAfterGas 0 fixedGasLimit e

/-- Observable events of the sequential loop: processing wallet `i`, or
the `time.Sleep` pacing pause. -/
inductive SeqEvent where
  | process (i : Nat)
  | sleep
deriving DecidableEq, Repr

/-- Aggregate view of a sequential run: the event trace, the
`successCount` and `failCount` tallies, total `EstimateGas` calls, and the
gas limit used for each wallet that reached transaction building. -/
structure SeqRun where
  events : List SeqEvent
  succ : Nat
  fail : Nat
  estCalls : Nat
  gasLimits : List Nat
deriving DecidableEq, Repr

/-- The wallet loop of `SingleTransferCmd` (lines 114-213) over a list of
wallet indices: every failure path increments `failCount` and `continue`s
(skipping the delay); the success path increments `successCount` and then
sleeps when `i < totalWallets-1 && delay > 0`. -/
def runSeqList (fixedGasLimit delay total : Nat) (env : Nat → WalletEnv) :
    List Nat → SeqRun
  | [] => ⟨[], 0, 0, 0, []⟩
  | i :: rest =>
    let r := processWallet fixedGasLimit (env i)
    let tl := runSeqList fixedGasLimit delay total env rest
    match r.outcome with
    | .error _ =>
      ⟨.process i :: tl.events, tl.succ, tl.fail + 1, r.estCalls + tl.estCalls,
        r.gasLimit.toList ++ tl.gasLimits⟩
    | .ok _ =>
      ⟨(if i < total - 1 ∧ 0 < delay then [SeqEvent.process i, .sleep] else [.process i])
          ++ tl.events,
        tl.succ + 1, tl.fail, r.estCalls + tl.estCalls, r.gasLimit.toList ++ tl.gasLimits⟩

/-- The sequential dispatcher's loop over wallets `0..total-1`. -/
def runSequential (fixedGasLimit delay : Nat) (env : Nat → WalletEnv) (total : Nat) : SeqRun :=
  runSeqList fixedGasLimit delay total env (List.range total)

/-- The wallet indices actually processed, in order, read off a trace. -/
def processedOf (evs : List SeqEvent) : List Nat :=
  evs.filterMap (fun e => match e with | .process i => some i | .sleep => none)

/-- Whether processing one wallet succeeds (reaches `successCount++`). -/
def walletSucceeds (fixedGasLimit : Nat) (e : WalletEnv) : Bool :=
  match (processWallet fixedGasLimit e).outcome with
  | .ok _ => true
  | .error _ => false

/-- The command-line flags of `batch-transfer` that feed `Config`
construction (`cmd/batch_transfer.go` lines 240-251), including the
`--batch-size` flag. -/
structure BatchFlags where
  rpcURL : String
  contractAddress : String
  csvFilePath : String
  amountPerWallet : ℤ
  gasPrice : ℤ
  batchSize : Nat
  fixedGasLimit : Nat
  maxWallets : Nat
deriving DecidableEq, Repr

/-- Go struct `Config` (lines 26-35): note it has no batch-size field. -/
structure Config where
  rpcURL : String
  contractAddress : String
  csvFilePath : String
  amountPerWallet : ℤ
  gasLimit : Nat
  gasPrice : ℤ
  maxWallets : Nat
deriving DecidableEq, Repr

/-- The `cfg := &Config{...}` construction in `BatchTransferCmd`
(lines 311-320): the `batchSize` flag is validated but never stored. -/
def buildConfig (f : BatchFlags) : Config :=
  ⟨f.rpcURL, f.contractAddress, f.csvFilePath, f.amountPerWallet,
    f.fixedGasLimit, f.gasPrice, f.maxWallets⟩

/-- The recipient partition `ExecuteBatchTransfer` computes from a config
and the wallets read from the CSV: the cap truncation followed by the
hard-coded `batchSize := 300` chunking (lines 94-136). -/
def executeBatchPartition (cfg : Config) (ws : List WalletInfo) : List (List WalletInfo) :=
  chunksOf 300 (applyMaxWallets cfg.maxWallets ws)

/-! ## Concrete inputs used by witnesses and counterexamples -/

/-- A three-record ledger used by witnesses. -/
def wstest : List WalletInfo := [⟨"a", "k1", ""⟩, ⟨"b", "k2", ""⟩, ⟨"c", "k3", ""⟩]

/-- A chunk whose every chain call succeeds (status 1). -/
def okChunkEnv : ChunkEnv := ⟨true, .ok 100000, .ok 1, .ok 1⟩

/-- A chunk whose transaction is mined with failure status 0 (revert). -/
def revertChunkEnv : ChunkEnv := ⟨true, .ok 100000, .ok 1, .ok 0⟩

/-- A batch environment where chunk 1 reverts and all others succeed. -/
def envRevertAt1 : Nat → ChunkEnv := fun i => if i = 1 then revertChunkEnv else okChunkEnv

/-- A wallet whose every chain call succeeds (status 1). -/
def okWalletEnv : WalletEnv := ⟨.ok 1, .ok 0, .ok 21000, .ok 56, .ok 1, .ok (), .ok 1⟩

/-- A wallet whose private key fails to parse. -/
def badKeyWalletEnv : WalletEnv := ⟨.error (), .ok 0, .ok 21000, .ok 56, .ok 1, .ok (), .ok 1⟩

/-- A sequential environment where wallet 0 fails key parsing and all
other wallets succeed. -/
def envBadKeyAt0 : Nat → WalletEnv := fun i => if i = 0 then badKeyWalletEnv else okWalletEnv

/-- Concrete flags used by the configuration witnesses. -/
def flagstest : BatchFlags := ⟨"rpc", "0xc", "w.csv", 100, 3, 300, 0, 0⟩

/-! ## Chunk-partition lemmas (batch dispatcher) -/

theorem chunksOf_length {α : Type} (batchSize : Nat) (ws : List α) :
    (chunksOf batchSize ws).length = (ws.length + batchSize - 1) / batchSize := by
  simp [chunksOf]

theorem chunksOf_nil {α : Type} (batchSize : Nat) :
    chunksOf batchSize ([] : List α) = [] := by
  rcases Nat.eq_zero_or_pos batchSize with h | h
  · simp [chunksOf, h]
  · simp only [chunksOf, List.length_nil, Nat.zero_add]
    rw [Nat.div_eq_of_lt (by omega)]
    simp

theorem chunksOf_cons {α : Type} {batchSize : Nat} (hC : 0 < batchSize)
    (ws : List α) (hws : ws ≠ []) :
    chunksOf batchSize ws = ws.take batchSize :: chunksOf batchSize (ws.drop batchSize) := by
  have hN : 0 < ws.length := List.length_pos.mpr hws
  have hceil : (ws.length + batchSize - 1) / batchSize = (ws.length - 1) / batchSize + 1 := by
    have h : ws.length + batchSize - 1 = (ws.length - 1) + batchSize := by omega
    rw [h, Nat.add_div_right _ hC]
  have hdroplen : (ws.drop batchSize).length = ws.length - batchSize := List.length_drop _ _
  have hcount : ((ws.drop batchSize).length + batchSize - 1) / batchSize
      = (ws.length - 1) / batchSize := by
    rcases le_or_lt ws.length batchSize with h | h
    · have h1 : ws.length - batchSize = 0 := by omega
      rw [hdroplen, h1, Nat.div_eq_of_lt (by omega), Nat.div_eq_of_lt (by omega)]
    · rw [hdroplen]
      congr 1
      omega
  simp only [chunksOf, hceil, hcount, List.range_succ_eq_map, List.map_cons, List.map_map]
  congr 1
  · simp only [Nat.zero_mul, List.drop_zero, Nat.sub_zero, Nat.zero_add, Nat.one_mul]
    rcases le_or_lt batchSize ws.length with h | h
    · rw [Nat.min_def, if_pos h]
    · rw [Nat.min_def, if_neg (by omega), List.take_length]
      exact (List.take_of_length_le (le_of_lt h)).symm
  · apply List.map_congr_left
    intro i hi
    have hmem : i < (ws.length - 1) / batchSize := List.mem_range.mp hi
    have hCN : 1 * batchSize ≤ ws.length - 1 := (Nat.le_div_iff_mul_le hC).mp (by omega)
    simp only [Function.comp]
    rw [List.drop_drop, hdroplen]
    have e1 : Nat.succ i * batchSize = i * batchSize + batchSize := Nat.succ_mul i batchSize
    have e2 : (Nat.succ i + 1) * batchSize = i * batchSize + batchSize + batchSize := by
      rw [Nat.succ_eq_add_one]
      ring
    rw [e1, e2, Nat.add_comm batchSize (i * batchSize)]
    congr 1
    omega

theorem chunksOf_flatten {α : Type} {batchSize : Nat} (hC : 0 < batchSize) (ws : List α) :
    (chunksOf batchSize ws).flatten = ws := by
  suffices h : ∀ (n : Nat) (ws : List α), ws.length = n → (chunksOf batchSize ws).flatten = ws by
    exact h ws.length ws rfl
  intro n
  induction n using Nat.strong_induction_on with
  | _ n ih =>
    intro ws hn
    rcases ws with _ | ⟨a, rest⟩
    · simp [chunksOf_nil]
    · rw [chunksOf_cons hC _ (by simp),
        List.flatten_cons,
        ih ((a :: rest).drop batchSize).length
          (by simp only [List.length_drop, List.length_cons] at hn ⊢; omega)
          _ rfl,
        List.take_append_drop]

theorem chunksOf_mem_length_le {α : Type} {batchSize : Nat} (ws : List α)
    (c : List α) (hc : c ∈ chunksOf batchSize ws) : c.length ≤ batchSize := by
  simp only [chunksOf, List.mem_map, List.mem_range] at hc
  obtain ⟨i, _, rfl⟩ := hc
  have h1 : ((ws.drop (i * batchSize)).take
        (min ((i + 1) * batchSize) ws.length - i * batchSize)).length
      ≤ min ((i + 1) * batchSize) ws.length - i * batchSize := by
    simp [List.length_take]
  refine le_trans h1 ?_
  have : (i + 1) * batchSize = i * batchSize + batchSize := Nat.succ_mul i batchSize
  omega

theorem chunksOf_get_length {α : Type} {batchSize : Nat} (hC : 0 < batchSize) (ws : List α)
    (i : Nat) (h : i + 1 < (chunksOf batchSize ws).length) :
    ((chunksOf batchSize ws).get ⟨i, Nat.lt_of_succ_lt h⟩).length = batchSize := by
  rw [chunksOf_length] at h
  have hmul : (i + 1 + 1) * batchSize ≤ ws.length + batchSize - 1 :=
    (Nat.le_div_iff_mul_le hC).mp (by omega)
  have e1 : (i + 1) * batchSize = i * batchSize + batchSize := Nat.succ_mul i batchSize
  have e2 : (i + 1 + 1) * batchSize = i * batchSize + batchSize + batchSize := by ring
  simp only [chunksOf, List.get_eq_getElem, List.getElem_map, List.getElem_range,
    List.length_take, List.length_drop]
  omega

/-- C1: for every ledger (after the positive `maxWallets` cap truncates it
to its first `min(N, cap)` records) and every chunk size `C > 0`, the batch
dispatcher's partition has exactly `ceil(N/C) = (N + C - 1) / C` chunks,
their concatenation is the (truncated) ledger in order — so the chunks are
consecutive, non-overlapping, gap-free and cover every recipient exactly
once — every chunk has at most `C` recipients, and every chunk except
possibly the last has exactly `C`. -/
theorem batch_partition_correct (batchSize maxWallets : Nat) (ws : List WalletInfo)
    (hC : 0 < batchSize) :
    (0 < maxWallets → applyMaxWallets maxWallets ws = ws.take (min ws.length maxWallets)) ∧
    (chunksOf batchSize (applyMaxWallets maxWallets ws)).length
      = ((applyMaxWallets maxWallets ws).length + batchSize - 1) / batchSize ∧
    (chunksOf batchSize (applyMaxWallets maxWallets ws)).flatten
      = applyMaxWallets maxWallets ws ∧
    (∀ c ∈ chunksOf batchSize (applyMaxWallets maxWallets ws), c.length ≤ batchSize) ∧
    (∀ i (h : i + 1 < (chunksOf batchSize (applyMaxWallets maxWallets ws)).length),
      ((chunksOf batchSize (applyMaxWallets maxWallets ws)).get
        ⟨i, Nat.lt_of_succ_lt h⟩).length = batchSize) := by
  refine ⟨?_, chunksOf_length _ _, chunksOf_flatten hC _,
    fun c hc => chunksOf_mem_length_le _ c hc, fun i h => chunksOf_get_length hC _ i h⟩
  intro hpos
  unfold applyMaxWallets
  split
  · next hcond => rw [Nat.min_def, if_neg (by omega)]
  · next hcond =>
    have : ws.length ≤ maxWallets := by omega
    rw [Nat.min_def, if_pos this, List.take_length]

/-- Witness for `batch_partition_correct` at chunk size 2, no cap, and a
three-record ledger. -/
theorem batch_partition_correct_witness :
    (0 < 0 → applyMaxWallets 0 wstest = wstest.take (min wstest.length 0)) ∧
    (chunksOf 2 (applyMaxWallets 0 wstest)).length
      = ((applyMaxWallets 0 wstest).length + 2 - 1) / 2 ∧
    (chunksOf 2 (applyMaxWallets 0 wstest)).flatten = applyMaxWallets 0 wstest ∧
    (∀ c ∈ chunksOf 2 (applyMaxWallets 0 wstest), c.length ≤ 2) ∧
    (∀ i (h : i + 1 < (chunksOf 2 (applyMaxWallets 0 wstest)).length),
      ((chunksOf 2 (applyMaxWallets 0 wstest)).get ⟨i, Nat.lt_of_succ_lt h⟩).length = 2) :=
  batch_partition_correct 2 0 wstest (by decide)

/-! ## Batch-run abort semantics -/

theorem runChunkList_ok_prefix (fixedGasLimit : Nat) (env : Nat → ChunkEnv)
    (l1 l2 : List Nat)
    (h : ∀ j ∈ l1, (processOneChunk fixedGasLimit (env j)).outcome = .ok ()) :
    (runChunkList fixedGasLimit env (l1 ++ l2)).attempted
      = l1 ++ (runChunkList fixedGasLimit env l2).attempted ∧
    (runChunkList fixedGasLimit env (l1 ++ l2)).result
      = (runChunkList fixedGasLimit env l2).result := by
  induction l1 with
  | nil => simp
  | cons i rest ih =>
    have hok : (processOneChunk fixedGasLimit (env i)).outcome = .ok () :=
      h i (by simp)
    have ihr := ih (fun j hj => h j (by simp [hj]))
    simp only [List.cons_append, runChunkList, hok, List.append_eq]
    constructor
    · rw [ihr.1]
    · rw [ihr.2]

/-- C2: in batch mode, if every chunk before `k` succeeds and chunk `k`
fails for any reason (revert, submission, estimation, packing or
confirmation failure), the run aborts with an error naming chunk `k`: the
attempted chunks are exactly `0..k`, so no chunk of index greater than `k`
is attempted and the failed chunk is attempted exactly once (no retry). -/
theorem batch_abort_on_failure (fixedGasLimit : Nat) (env : Nat → ChunkEnv)
    (total k : Nat) (e : BatchErr) (hk : k < total)
    (hok : ∀ j < k, (processOneChunk fixedGasLimit (env j)).outcome = .ok ())
    (hfail : (processOneChunk fixedGasLimit (env k)).outcome = .error e) :
    (runBatches fixedGasLimit env total).attempted = List.range (k + 1) ∧
    (runBatches fixedGasLimit env total).result = .error (k, e) ∧
    (∀ j ∈ (runBatches fixedGasLimit env total).attempted, j ≤ k) ∧
    (runBatches fixedGasLimit env total).attempted.count k = 1 := by
  obtain ⟨m, rfl⟩ : ∃ m, total = (k + 1) + m := ⟨total - (k + 1), by omega⟩
  have hsplit : List.range ((k + 1) + m)
      = List.range k ++ (k :: (List.range m).map (fun j => (k + 1) + j)) := by
    rw [List.range_add, List.range_succ]
    simp
  have hpre := runChunkList_ok_prefix fixedGasLimit env (List.range k)
    (k :: (List.range m).map (fun j => (k + 1) + j))
    (fun j hj => hok j (List.mem_range.mp hj))
  have hhead : runChunkList fixedGasLimit env
      (k :: (List.range m).map (fun j => (k + 1) + j))
      = ⟨[k], (processOneChunk fixedGasLimit (env k)).estCalls,
          (processOneChunk fixedGasLimit (env k)).gasLimit.toList, .error (k, e)⟩ := by
    simp [runChunkList, hfail]
  have hatt : (runBatches fixedGasLimit env ((k + 1) + m)).attempted = List.range (k + 1) := by
    rw [runBatches, hsplit, hpre.1, hhead, List.range_succ]
  refine ⟨hatt, ?_, ?_, ?_⟩
  · rw [runBatches, hsplit, hpre.2, hhead]
  · intro j hj
    rw [hatt] at hj
    have := List.mem_range.mp hj
    omega
  · rw [hatt, List.range_succ, List.count_append]
    have h0 : (List.range k).count k = 0 :=
      List.count_eq_zero_of_not_mem (by simp [List.mem_range])
    simp [h0]

/-- Witness for `batch_abort_on_failure`: three chunks, chunk 1 reverts. -/
theorem batch_abort_on_failure_witness :
    (runBatches 0 envRevertAt1 3).attempted = List.range 2 ∧
    (runBatches 0 envRevertAt1 3).result = .error (1, .reverted) ∧
    (∀ j ∈ (runBatches 0 envRevertAt1 3).attempted, j ≤ 1) ∧
    (runBatches 0 envRevertAt1 3).attempted.count 1 = 1 :=
  batch_abort_on_failure 0 envRevertAt1 3 1 .reverted (by decide) (by decide) (by decide)

/-! ## Sequential-run bookkeeping -/

theorem runSeqList_processed (fixedGasLimit delay total : Nat) (env : Nat → WalletEnv)
    (l : List Nat) :
    processedOf ((runSeqList fixedGasLimit delay total env l).events) = l ∧
    (runSeqList fixedGasLimit delay total env l).succ
      = (l.filter (fun i => walletSucceeds fixedGasLimit (env i))).length ∧
    (runSeqList fixedGasLimit delay total env l).fail
      = (l.filter (fun i => ! walletSucceeds fixedGasLimit (env i))).length ∧
    (runSeqList fixedGasLimit delay total env l).succ
      + (runSeqList fixedGasLimit delay total env l).fail = l.length := by
  induction l with
  | nil => simp [runSeqList, processedOf]
  | cons i rest ih =>
    rcases hout : (processWallet fixedGasLimit (env i)).outcome with e | u
    · have hs : walletSucceeds fixedGasLimit (env i) = false := by
        simp [walletSucceeds, hout]
      simp only [runSeqList, hout, processedOf, List.filterMap_cons, List.filter_cons, hs]
      refine ⟨by simpa [processedOf] using ih.1, by simpa using ih.2.1,
        by simpa using ih.2.2.1, by simp [ih.2.2.2]; omega⟩
    · have hs : walletSucceeds fixedGasLimit (env i) = true := by
        simp [walletSucceeds, hout]
      simp only [runSeqList, hout]
      constructor
      · simp only [processedOf, List.filterMap_append]
        have hseg : List.filterMap
            (fun e => match e with | SeqEvent.process i => some i | SeqEvent.sleep => none)
            (if i < total - 1 ∧ 0 < delay then [SeqEvent.process i, SeqEvent.sleep]
              else [SeqEvent.process i]) = [i] := by
          split <;> simp
        rw [hseg]
        simpa [processedOf] using congrArg (fun l => i :: l) ih.1
      · refine ⟨?_, ?_, ?_⟩
        · simp only [List.filter_cons, hs]
          simpa using ih.2.1
        · simp only [List.filter_cons, hs]
          simpa using ih.2.2.1
        · simp [ih.2.2.2]
          omega

/-- C3: in sequential mode every wallet is processed in ledger order no
matter which wallets fail and at which stage (key parse, nonce, gas
estimation, chain id, signing, submission, confirmation, or on-chain
revert), each processed wallet lands in exactly one of the two tallies,
and the final tally satisfies `succeeded + failed = totalUnits`. -/
theorem sequential_isolation_and_tally (fixedGasLimit delay : Nat)
    (env : Nat → WalletEnv) (total : Nat) :
    processedOf ((runSequential fixedGasLimit delay env total).events) = List.range total ∧
    (runSequential fixedGasLimit delay env total).succ
      = ((List.range total).filter (fun i => walletSucceeds fixedGasLimit (env i))).length ∧
    (runSequential fixedGasLimit delay env total).fail
      = ((List.range total).filter (fun i => ! walletSucceeds fixedGasLimit (env i))).length ∧
    (runSequential fixedGasLimit delay env total).succ
      + (runSequential fixedGasLimit delay env total).fail = total := by
  have h := runSeqList_processed fixedGasLimit delay total env (List.range total)
  simp only [runSequential]
  exact ⟨h.1, h.2.1, h.2.2.1, by simpa [List.length_range] using h.2.2.2⟩

/-! ## Sequential-run pacing -/

theorem runSeqList_events (fixedGasLimit delay total : Nat) (env : Nat → WalletEnv)
    (l : List Nat) :
    (runSeqList fixedGasLimit delay total env l).events
      = l.flatMap (fun i => SeqEvent.process i ::
          (if walletSucceeds fixedGasLimit (env i) = true ∧ i < total - 1 ∧ 0 < delay then
            [SeqEvent.sleep] else [])) := by
  induction l with
  | nil => simp [runSeqList]
  | cons i rest ih =>
    rcases hout : (processWallet fixedGasLimit (env i)).outcome with e | u
    · have hs : walletSucceeds fixedGasLimit (env i) = false := by
        simp [walletSucceeds, hout]
      simp [runSeqList, hout, hs, ih]
    · have hs : walletSucceeds fixedGasLimit (env i) = true := by
        simp [walletSucceeds, hout]
      simp only [runSeqList, hout, ih, List.flatMap_cons, hs, true_and]
      split
      · simp
      · simp

/-- C7 counterexample: two wallets, delay 5 > 0, wallet 0 (not the last
wallet) fails key parsing. The claim predicts a pacing pause after wallet
0; the code's trace contains no sleep at all, because every failure path
`continue`s past the delay. -/
theorem sequential_delay_skipped_on_failure :
    (runSequential 0 5 envBadKeyAt0 2).events = [SeqEvent.process 0, SeqEvent.process 1] ∧
    SeqEvent.sleep ∉ (runSequential 0 5 envBadKeyAt0 2).events ∧
    walletSucceeds 0 (envBadKeyAt0 0) = false ∧ (0 : Nat) < 5 := by
  decide

/-- C7 (amended): in sequential mode the pacing pause happens exactly
after every **successfully** processed wallet that is not the last one,
when the configured delay is positive; a failed wallet proceeds to the
next wallet without pausing. -/
theorem sequential_delay_after_success (fixedGasLimit delay : Nat)
    (env : Nat → WalletEnv) (total : Nat) :
    (runSequential fixedGasLimit delay env total).events
      = (List.range total).flatMap (fun i => SeqEvent.process i ::
          (if walletSucceeds fixedGasLimit (env i) = true ∧ i < total - 1 ∧ 0 < delay then
            [SeqEvent.sleep] else [])) :=
  runSeqList_events fixedGasLimit delay total env (List.range total)

/-! ## Gas-limit policy -/

theorem chunkAfterGas_fields (calls gl : Nat) (e : ChunkEnv) :
    (chunkAfterGas calls gl e).estCalls = calls ∧
    (chunkAfterGas calls gl e).gasLimit = some gl := by
  simp only [chunkAfterGas]
  split
  · exact ⟨rfl, rfl⟩
  · split
    · exact ⟨rfl, rfl⟩
    · split <;> exact ⟨rfl, rfl⟩

theorem walletAfterGas_fields (calls gl : Nat) (e : WalletEnv) :
    (walletAfterGas calls gl e).estCalls = calls ∧
    (walletAfterGas calls gl e).gasLimit = some gl := by
  simp only [walletAfterGas]
  split
  · exact ⟨rfl, rfl⟩
  · split
    · exact ⟨rfl, rfl⟩
    · split
      · exact ⟨rfl, rfl⟩
      · split
        · exact ⟨rfl, rfl⟩
        · split <;> exact ⟨rfl, rfl⟩

theorem processOneChunk_fixed (fixedGasLimit : Nat) (e : ChunkEnv)
    (hf : fixedGasLimit ≠ 0) :
    (processOneChunk fixedGasLimit e).estCalls = 0 ∧
    (processOneChunk fixedGasLimit e).gasLimit = some fixedGasLimit := by
  simp only [processOneChunk, if_neg hf]
  exact chunkAfterGas_fields 0 fixedGasLimit e

theorem processWallet_fixed (fixedGasLimit : Nat) (e : WalletEnv)
    (hf : fixedGasLimit ≠ 0) :
    (processWallet fixedGasLimit e).estCalls = 0 ∧
    ((processWallet fixedGasLimit e).gasLimit = none ∨
      (processWallet fixedGasLimit e).gasLimit = some fixedGasLimit) := by
  simp only [processWallet]
  split
  · exact ⟨rfl, Or.inl rfl⟩
  · split
    · exact ⟨rfl, Or.inl rfl⟩
    · rw [if_neg hf]
      have h := walletAfterGas_fields 0 fixedGasLimit e
      exact ⟨h.1, Or.inr h.2⟩

theorem runChunkList_fixed (fixedGasLimit : Nat) (env : Nat → ChunkEnv)
    (l : List Nat) (hf : fixedGasLimit ≠ 0) :
    (runChunkList fixedGasLimit env l).estCalls = 0 ∧
    (∀ g ∈ (runChunkList fixedGasLimit env l).gasLimits, g = fixedGasLimit) := by
  induction l with
  | nil => simp [runChunkList]
  | cons i rest ih =>
    have hp := processOneChunk_fixed fixedGasLimit (env i) hf
    simp only [runChunkList]
    split
    · refine ⟨hp.1, ?_⟩
      rw [hp.2]
      intro g hg
      simp at hg
      exact hg
    · refine ⟨by rw [hp.1, ih.1], ?_⟩
      rw [hp.2]
      intro g hg
      rcases List.mem_append.mp hg with h | h
      · simpa using h
      · exact ih.2 g h

theorem runSeqList_fixed (fixedGasLimit delay total : Nat) (env : Nat → WalletEnv)
    (l : List Nat) (hf : fixedGasLimit ≠ 0) :
    (runSeqList fixedGasLimit delay total env l).estCalls = 0 ∧
    (∀ g ∈ (runSeqList fixedGasLimit delay total env l).gasLimits, g = fixedGasLimit) := by
  induction l with
  | nil => simp [runSeqList]
  | cons i rest ih =>
    have hp := processWallet_fixed fixedGasLimit (env i) hf
    have hgl : ∀ g ∈ (processWallet fixedGasLimit (env i)).gasLimit.toList,
        g = fixedGasLimit := by
      rcases hp.2 with h | h <;> rw [h] <;> intro g hg
      · simp at hg
      · simpa using hg
    simp only [runSeqList]
    split <;>
      refine ⟨by rw [hp.1, ih.1], fun g hg => ?_⟩ <;>
      rcases List.mem_append.mp hg with h | h
    · exact hgl g h
    · exact ih.2 g h
    · exact hgl g h
    · exact ih.2 g h

theorem processOneChunk_estimates (e : ChunkEnv) (hp : e.packOk = true) :
    (processOneChunk 0 e).estCalls = 1 ∧
    ∀ g, e.estimateGas = .ok g → (processOneChunk 0 e).gasLimit = some (g * 12 / 10) := by
  simp only [processOneChunk, if_pos rfl, hp]
  rcases hest : e.estimateGas with x | g0
  · simp
  · have h := chunkAfterGas_fields 1 (g0 * 12 / 10) e
    refine ⟨by simp [h.1], fun g hg => ?_⟩
    cases hg
    simp [h.2]

theorem processWallet_estimates (w : WalletEnv)
    (hk : ∃ x, w.parseKey = .ok x) (hn : ∃ x, w.pendingNonce = .ok x) :
    (processWallet 0 w).estCalls = 1 ∧
    ∀ g, w.estimateGas = .ok g → (processWallet 0 w).gasLimit = some (g * 12 / 10) := by
  obtain ⟨xk, hxk⟩ := hk
  obtain ⟨xn, hxn⟩ := hn
  simp only [processWallet, hxk, hxn, if_pos rfl]
  rcases hest : w.estimateGas with x | g0
  · simp
  · have h := walletAfterGas_fields 1 (g0 * 12 / 10) w
    refine ⟨by simp [h.1], fun g hg => ?_⟩
    cases hg
    simp [h.2]

/-- C4: in either dispatch mode, a positive `fixedGasLimit` is used
verbatim as every unit's gas limit and the whole run makes zero
gas-estimation calls; with `fixedGasLimit == 0`, every unit that reaches
gas resolution makes exactly one estimation call and, when that call
returns `g`, uses `g * 12 / 10` (truncating integer arithmetic, a +20%
buffer) as its gas limit. -/
theorem gas_limit_policy (fixedGasLimit delay ctotal wtotal : Nat)
    (cenv : Nat → ChunkEnv) (wenv : Nat → WalletEnv) (e : ChunkEnv) (w : WalletEnv) :
    (0 < fixedGasLimit →
      (runBatches fixedGasLimit cenv ctotal).estCalls = 0 ∧
      (∀ g ∈ (runBatches fixedGasLimit cenv ctotal).gasLimits, g = fixedGasLimit) ∧
      (runSequential fixedGasLimit delay wenv wtotal).estCalls = 0 ∧
      (∀ g ∈ (runSequential fixedGasLimit delay wenv wtotal).gasLimits, g = fixedGasLimit)) ∧
    (e.packOk = true →
      (processOneChunk 0 e).estCalls = 1 ∧
      ∀ g, e.estimateGas = .ok g → (processOneChunk 0 e).gasLimit = some (g * 12 / 10)) ∧
    ((∃ x, w.parseKey = .ok x) → (∃ x, w.pendingNonce = .ok x) →
      (processWallet 0 w).estCalls = 1 ∧
      ∀ g, w.estimateGas = .ok g → (processWallet 0 w).gasLimit = some (g * 12 / 10)) := by
  refine ⟨fun hf => ?_, processOneChunk_estimates e, processWallet_estimates w⟩
  have hb := runChunkList_fixed fixedGasLimit cenv (List.range ctotal) (by omega)
  have hs := runSeqList_fixed fixedGasLimit delay wtotal wenv (List.range wtotal) (by omega)
  exact ⟨hb.1, hb.2, hs.1, hs.2⟩

/-- Witness for `gas_limit_policy` at `fixedGasLimit = 7` (runs of two
units each) and at `fixedGasLimit = 0` on a unit whose estimation
returns 100000 (gas limit 120000). -/
theorem gas_limit_policy_witness :
    ((runBatches 7 (fun _ => okChunkEnv) 2).estCalls = 0 ∧
      (∀ g ∈ (runBatches 7 (fun _ => okChunkEnv) 2).gasLimits, g = 7) ∧
      (runSequential 7 0 (fun _ => okWalletEnv) 2).estCalls = 0 ∧
      (∀ g ∈ (runSequential 7 0 (fun _ => okWalletEnv) 2).gasLimits, g = 7)) ∧
    ((processOneChunk 0 okChunkEnv).estCalls = 1 ∧
      ∀ g, okChunkEnv.estimateGas = .ok g →
        (processOneChunk 0 okChunkEnv).gasLimit = some (g * 12 / 10)) ∧
    ((processWallet 0 okWalletEnv).estCalls = 1 ∧
      ∀ g, okWalletEnv.estimateGas = .ok g →
        (processWallet 0 okWalletEnv).gasLimit = some (g * 12 / 10)) := by
  have h := gas_limit_policy 7 0 2 2 (fun _ => okChunkEnv) (fun _ => okWalletEnv)
    okChunkEnv okWalletEnv
  exact ⟨h.1 (by decide), h.2.1 (by decide), h.2.2 ⟨1, rfl⟩ ⟨0, rfl⟩⟩

/-! ## Fee policy -/

theorem goTruncInt_intCast (k : ℤ) : goTruncInt (k : ℚ) = k := by
  simp [goTruncInt]

theorem gasPrice_exact (s : ℤ) (m : ℚ) (scale : Nat) (hs : 0 < scale)
    (h : (m * (scale : ℚ)).den = 1) :
    Int.ediv (s * goTruncInt (m * (scale : ℚ))) (scale : ℤ) = ⌊(s : ℚ) * m⌋ := by
  have hmk : (((m * (scale : ℚ)).num : ℤ) : ℚ) = m * (scale : ℚ) :=
    Rat.coe_int_num_of_den_eq_one h
  have htr : goTruncInt (m * (scale : ℚ)) = (m * (scale : ℚ)).num := by
    conv_lhs => rw [← hmk]
    exact goTruncInt_intCast _
  rw [htr]
  have hsq : ((scale : ℚ)) ≠ 0 := by
    exact_mod_cast Nat.pos_iff_ne_zero.mp hs
  have hsm : (s : ℚ) * m = ((s * (m * (scale : ℚ)).num : ℤ) : ℚ) / ((scale : Nat) : ℚ) := by
    rw [eq_div_iff hsq]
    push_cast
    rw [mul_assoc]
    conv_lhs => rw [← hmk]
  rw [hsm, Rat.floor_intCast_div_natCast]
  rfl

theorem batchGasPrice_exact (s : ℤ) (m : ℚ) (h : (m * 100).den = 1) :
    batchGasPrice s m = ⌊(s : ℚ) * m⌋ := by
  have hg := gasPrice_exact s m 100 (by norm_num) (by exact_mod_cast h)
  rw [batchGasPrice]
  exact_mod_cast hg

theorem singleGasPrice_exact (s : ℤ) (m : ℚ) (h : (m * 10000).den = 1) :
    singleGasPrice s m = ⌊(s : ℚ) * m⌋ := by
  have hg := gasPrice_exact s m 10000 (by norm_num) (by exact_mod_cast h)
  rw [singleGasPrice]
  exact_mod_cast hg

/-- C5: the Fee Policy multiplies the suggested price by a truncated
scaled-integer representation of the multiplier and integer-divides by the
same scale, in both dispatchers; a suggested price of zero always yields a
gas price of zero (no error), and whenever the multiplier is exactly
representable at the dispatcher's scale the computed price is exactly
`⌊suggested * multiplier⌋`. -/
theorem fee_policy (s : ℤ) (m : ℚ) :
    batchGasPrice 0 m = 0 ∧ singleGasPrice 0 m = 0 ∧
    ((m * 100).den = 1 → batchGasPrice s m = ⌊(s : ℚ) * m⌋) ∧
    ((m * 10000).den = 1 → singleGasPrice s m = ⌊(s : ℚ) * m⌋) :=
  ⟨by simp only [batchGasPrice, Int.zero_mul]; decide,
    by simp only [singleGasPrice, Int.zero_mul]; decide,
    batchGasPrice_exact s m, singleGasPrice_exact s m⟩

/-- Witness for `fee_policy` at multiplier `3/2` and suggested price 7. -/
theorem fee_policy_witness :
    batchGasPrice 0 (3 / 2) = 0 ∧ singleGasPrice 0 (3 / 2) = 0 ∧
    batchGasPrice 7 (3 / 2) = ⌊(7 : ℚ) * (3 / 2)⌋ ∧
    singleGasPrice 7 (3 / 2) = ⌊(7 : ℚ) * (3 / 2)⌋ :=
  ⟨(fee_policy 0 (3 / 2)).1, (fee_policy 0 (3 / 2)).2.1,
    (fee_policy 7 (3 / 2)).2.2.1 (by norm_num),
    (fee_policy 7 (3 / 2)).2.2.2 (by norm_num)⟩

/-- C6 counterexample: at suggested price 10000 and multiplier
`1.0001 = 10001/10000` (the CLI default `--gas-multiplier`), the batch
dispatcher computes gas price 10000 (its scale-100 representation
truncates the multiplier to exactly 1) while the sequential dispatcher
computes 10001 — the two dispatchers do not compute the identical
gasPrice for identical inputs. -/
theorem fee_policy_not_shared :
    batchGasPrice 10000 (10001 / 10000) = 10000 ∧
    singleGasPrice 10000 (10001 / 10000) = 10001 ∧
    batchGasPrice 10000 (10001 / 10000) ≠ singleGasPrice 10000 (10001 / 10000) := by
  have hb : batchGasPrice 10000 (10001 / 10000) = 10000 := by
    have h1 : ((10001 : ℚ) / 10000) * 100 = 10001 / 100 := by norm_num
    have h2 : ((10001 : ℚ) / 100).num = 10001 := by norm_num
    have h3 : ((10001 : ℚ) / 100).den = 100 := by norm_num
    simp only [batchGasPrice, goTruncInt, h1, h2, h3]
    decide
  have hs : singleGasPrice 10000 (10001 / 10000) = 10001 := by
    have h1 : ((10001 : ℚ) / 10000) * 10000 = 10001 := by norm_num
    have h2 : ((10001 : ℚ)).num = 10001 := by norm_num
    have h3 : ((10001 : ℚ)).den = 1 := by norm_num
    simp only [singleGasPrice, goTruncInt, h1, h2, h3]
    decide
  exact ⟨hb, hs, by rw [hb, hs]; decide⟩

/-- C6 (amended): each dispatcher's gas-price computation is a
deterministic pure function of `(suggestedPrice, multiplier)`, but they
are two different fixed-point computations (scale 100 in batch mode,
scale 10000 in sequential mode); they coincide whenever the multiplier is
exactly representable at the coarser scale 100 (an exact multiple of
1/100). -/
theorem fee_policy_agree (s : ℤ) (m : ℚ) (h : (m * 100).den = 1) :
    batchGasPrice s m = singleGasPrice s m := by
  have h2 : (m * 10000).den = 1 := by
    have he : m * 10000 = ((((m * 100).num * 100 : ℤ)) : ℚ) := by
      have hmk : (((m * 100).num : ℤ) : ℚ) = m * 100 :=
        Rat.coe_int_num_of_den_eq_one h
      push_cast
      rw [hmk]
      ring
    rw [he]
    exact Rat.den_intCast _
  rw [batchGasPrice_exact s m h, singleGasPrice_exact s m h2]

/-- Witness for `fee_policy_agree` at multiplier `3/2`, suggested 7. -/
theorem fee_policy_agree_witness :
    batchGasPrice 7 (3 / 2) = singleGasPrice 7 (3 / 2) :=
  fee_policy_agree 7 (3 / 2) (by norm_num)

/-! ## Ledger reader -/

theorem checkHeader_ok_iff (hs : List String) :
    checkHeader hs = .ok ↔ hs.get? 0 = some "Address" ∧ hs.get? 1 = some "Private Key" ∧
      hs.get? 2 = some "Mnemonic" := by
  rcases hs with _ | ⟨a, _ | ⟨b, _ | ⟨c, rest⟩⟩⟩ <;>
    simp [checkHeader, checkOne] <;> split_ifs <;> simp_all

theorem checkHeader_oob_iff (hs : List String) :
    checkHeader hs = .oob ↔ hs.length < 3 ∧ hs = expectedHeaders.take hs.length := by
  rcases hs with _ | ⟨a, _ | ⟨b, _ | ⟨c, rest⟩⟩⟩ <;>
    simp [checkHeader, checkOne, expectedHeaders] <;> split_ifs <;> simp_all

theorem checkHeader_ok_len3 (hs : List String) (h : checkHeader hs = .ok)
    (hlen : hs.length = 3) : hs = expectedHeaders := by
  rcases hs with _ | ⟨a, _ | ⟨b, _ | ⟨c, _ | ⟨d, rest⟩⟩⟩⟩ <;> simp at hlen
  have h3 := (checkHeader_ok_iff [a, b, c]).mp h
  simp only [List.get?] at h3
  obtain ⟨ha, hb, hc⟩ := h3
  cases ha
  cases hb
  cases hc
  rfl

theorem parseRow_eq (r : List String) :
    parseRow r = if r.length = 3 then some (rowToWallet r) else none := by
  rcases r with _ | ⟨a, _ | ⟨b, _ | ⟨c, _ | ⟨d, rest⟩⟩⟩⟩ <;>
    simp [parseRow, rowToWallet, List.getD]

theorem parseAllRows_eq (data : List (List String)) :
    parseAllRows data
      = if ∀ r ∈ data, r.length = 3 then some (data.map rowToWallet) else none := by
  induction data with
  | nil => simp [parseAllRows]
  | cons r rest ih =>
    simp only [parseAllRows, parseRow_eq, ih]
    by_cases hr : r.length = 3 <;> by_cases hrest : ∀ x ∈ rest, x.length = 3
    · rw [if_pos hr, if_pos hrest,
        if_pos (show ∀ x ∈ r :: rest, x.length = 3 by
          intro x hx
          rcases List.mem_cons.mp hx with rfl | hx2
          exacts [hr, hrest x hx2])]
      rfl
    · rw [if_pos hr, if_neg hrest,
        if_neg (fun h => hrest (fun x hx => h x (List.mem_cons_of_mem r hx)))]
    · rw [if_neg hr, if_pos hrest,
        if_neg (fun h => hr (h r (List.mem_cons_self r rest)))]
    · rw [if_neg hr, if_neg hrest,
        if_neg (fun h => hr (h r (List.mem_cons_self r rest)))]

theorem csvUniform_true_iff (hd : List String) (data : List (List String)) :
    csvUniform (hd :: data) = true ↔ ∀ r ∈ data, r.length = hd.length := by
  simp [csvUniform, List.all_eq_true]

/-- C8 counterexample: the one-column header `["Address"]` does not match
the expected three-column schema, so the claim requires a
`MalformedLedger` error; the reader instead indexes the second header
column out of bounds — a runtime panic, which is not a returned error
(and not a successful parse either). -/
theorem ledger_reader_crash_not_error :
    readWalletsFromCSV [["Address"], ["0x1"]] = .crash ∧
    ["Address"] ≠ expectedHeaders ∧
    ReadOutcome.crash ≠ ReadOutcome.malformed := by
  decide

/-- C8 (amended): the reader succeeds exactly on files with at least one
data row, header exactly `Address, Private Key, Mnemonic`, and every data
row of exactly three columns, trimming surrounding whitespace from every
field; it fails with a returned `MalformedLedger` error exactly on the
remaining files **except** those whose header is a proper prefix of the
schema with uniform data rows present, where the header check indexes out
of bounds (a crash) instead of returning the error. -/
theorem ledger_reader_characterization (hd : List String) (data : List (List String)) :
    (readWalletsFromCSV (hd :: data)
      = if data ≠ [] ∧ hd = expectedHeaders ∧ (∀ r ∈ data, r.length = 3) then
          ReadOutcome.ok (data.map rowToWallet)
        else if (∀ r ∈ data, r.length = hd.length) ∧ data ≠ [] ∧
            hd.length < 3 ∧ hd = expectedHeaders.take hd.length then
          ReadOutcome.crash
        else ReadOutcome.malformed) ∧
    readWalletsFromCSV [] = ReadOutcome.malformed := by
  have hok : checkHeader expectedHeaders = HeaderCheck.ok := by decide
  refine ⟨?_, by decide⟩
  by_cases hu : csvUniform (hd :: data) = true
  · have hall : ∀ r ∈ data, r.length = hd.length := (csvUniform_true_iff hd data).mp hu
    rw [readWalletsFromCSV, if_neg (by rw [hu]; simp)]
    by_cases hd0 : data = []
    · subst hd0
      rw [if_pos (by simp), if_neg (by simp), if_neg (by simp)]
    · have hlen2 : ¬ (hd :: data).length < 2 := by
        rcases data with _ | ⟨r, rest⟩
        · exact absurd rfl hd0
        · simp
      rw [if_neg hlen2]
      rcases hch : checkHeader hd with _ | _ | _
      · -- header matches: the data-row loop decides the outcome
        rw [parseAllRows_eq]
        by_cases hrows : ∀ r ∈ data, r.length = 3
        · obtain ⟨r0, hr0⟩ := List.exists_mem_of_ne_nil data hd0
          have hdlen : hd.length = 3 := by rw [← hall r0 hr0, hrows r0 hr0]
          have hdexp : hd = expectedHeaders := checkHeader_ok_len3 hd hch hdlen
          rw [if_pos hrows, if_pos ⟨hd0, hdexp, hrows⟩]
        · have hcond1 : ¬ (data ≠ [] ∧ hd = expectedHeaders ∧
              ∀ r ∈ data, r.length = 3) := by
            rintro ⟨-, -, h⟩
            exact hrows h
          have hcond2 : ¬ ((∀ r ∈ data, r.length = hd.length) ∧ data ≠ [] ∧
              hd.length < 3 ∧ hd = expectedHeaders.take hd.length) := by
            rintro ⟨-, -, h3, hpre⟩
            have hc := (checkHeader_oob_iff hd).mpr ⟨h3, hpre⟩
            rw [hch] at hc
            cases hc
          rw [if_neg hrows, if_neg hcond1, if_neg hcond2]
      · -- header mismatch
        have hcond1 : ¬ (data ≠ [] ∧ hd = expectedHeaders ∧
            ∀ r ∈ data, r.length = 3) := by
          rintro ⟨-, rfl, -⟩
          rw [hok] at hch
          cases hch
        have hcond2 : ¬ ((∀ r ∈ data, r.length = hd.length) ∧ data ≠ [] ∧
            hd.length < 3 ∧ hd = expectedHeaders.take hd.length) := by
          rintro ⟨-, -, h3, hpre⟩
          have hc := (checkHeader_oob_iff hd).mpr ⟨h3, hpre⟩
          rw [hch] at hc
          cases hc
        rw [if_neg hcond1, if_neg hcond2]
      · -- out-of-bounds header indexing
        have hoob := (checkHeader_oob_iff hd).mp hch
        have hcond1 : ¬ (data ≠ [] ∧ hd = expectedHeaders ∧
            ∀ r ∈ data, r.length = 3) := by
          rintro ⟨-, rfl, -⟩
          rw [hok] at hch
          cases hch
        rw [if_neg hcond1, if_pos ⟨hall, hd0, hoob.1, hoob.2⟩]
  · have hu' : csvUniform (hd :: data) = false := by
      revert hu
      cases csvUniform (hd :: data) <;> simp
    have hnotall : ¬ ∀ r ∈ data, r.length = hd.length := fun hall =>
      by rw [(csvUniform_true_iff hd data).mpr hall] at hu'; cases hu'
    have hcond1 : ¬ (data ≠ [] ∧ hd = expectedHeaders ∧ ∀ r ∈ data, r.length = 3) := by
      rintro ⟨-, rfl, h3⟩
      exact hnotall (fun r hr => by rw [h3 r hr]; rfl)
    have hcond2 : ¬ ((∀ r ∈ data, r.length = hd.length) ∧ data ≠ [] ∧
        hd.length < 3 ∧ hd = expectedHeaders.take hd.length) := by
      rintro ⟨h, -⟩
      exact hnotall h
    rw [readWalletsFromCSV, if_pos hu', if_neg hcond1, if_neg hcond2]

/-- C9: a two-column ledger with header exactly `Address, Private Key`
(the optional-mnemonic format the spec documents) is not parsed into
records with empty mnemonics: the header-validation loop unconditionally
reads the third header column, which on this file is an out-of-bounds
index — a runtime panic. -/
theorem ledger_reader_optional_mnemonic_crashes :
    readWalletsFromCSV [["Address", "Private Key"], ["0xAbC", "deadbeef"]]
      = ReadOutcome.crash := by
  decide

/-! ## Configuration: the batch-size flag -/

/-- C10: `Config` carries no chunk-size field and `ExecuteBatchTransfer`
hard-codes `batchSize := 300`, so two runs whose flags differ only in the
(positive) `--batch-size` value produce the identical chunk partition,
namely the 300-chunking of the cap-truncated ledger. -/
theorem batch_size_flag_ignored (f : BatchFlags) (b1 b2 : Nat)
    (_h1 : 0 < b1) (_h2 : 0 < b2) (ws : List WalletInfo) :
    executeBatchPartition (buildConfig { f with batchSize := b1 }) ws
      = executeBatchPartition (buildConfig { f with batchSize := b2 }) ws ∧
    executeBatchPartition (buildConfig { f with batchSize := b1 }) ws
      = chunksOf 300 (applyMaxWallets f.maxWallets ws) :=
  ⟨rfl, rfl⟩

/-- Witness for `batch_size_flag_ignored` at flag values 1 and 5. -/
theorem batch_size_flag_ignored_witness :
    executeBatchPartition (buildConfig { flagstest with batchSize := 1 }) wstest
      = executeBatchPartition (buildConfig { flagstest with batchSize := 5 }) wstest ∧
    executeBatchPartition (buildConfig { flagstest with batchSize := 1 }) wstest
      = chunksOf 300 (applyMaxWallets flagstest.maxWallets wstest) :=
  batch_size_flag_ignored flagstest 1 5 (by decide) (by decide) wstest

end AccountSplitting
